import Mathlib

/-!
Verification of the Parquet decimal decode path
(`src/core/rust/qdbr/src/parquet_read/decimal.rs`).

Bytes are modelled as `Nat` (the Rust code operates on `u8`; well-formedness
`b < 256` appears as a hypothesis where value semantics depend on it).
Fallible Rust functions returning `ParquetResult` are modelled with
`Except ErrKind`.
-/

namespace QdbDecimal

/-- Error taxonomy of `ParquetErrorReason` restricted to the kinds raised by
the decimal decode path (`fmt_err!(Unsupported, ...)` / `fmt_err!(Layout, ...)`).
Messages are elided; only the kind matters to the verified claims. -/
inductive ErrKind where
  | unsupported
  | layout
  deriving DecidableEq

deriving instance DecidableEq for Except

/-- Test of the high bit of a byte: `b & 0x80 != 0` in the source. -/
def byteTop (b : Nat) : Bool := b &&& 128 != 0

/-- The sign-extension byte chosen by the source:
`if src[0] & 0x80 != 0 { 0xFF } else { 0x00 }`. -/
def signExtByte (b : Nat) : Nat := if byteTop b then 255 else 0

/-- The sign-extended `N`-byte version of a source: `N - src.length` copies of
the sign byte followed by the source bytes (big-endian). This is the
conceptual extended source indexed by `extended_pos` in the converter's
multi-word loop. -/
def signExtend (N : Nat) (src : List Nat) : List Nat :=
  List.replicate (N - src.length) (signExtByte (src.headD 0)) ++ src

/-- Big-endian base-256 value of a byte list (unsigned). The first byte is
the most significant. -/
def beNat : List Nat → Nat
  | [] => 0
  | b :: rest => b * 256 ^ rest.length + beNat rest

/-- Little-endian base-256 value of a byte list (unsigned). The first byte is
the least significant. -/
def leNat : List Nat → Nat
  | [] => 0
  | b :: rest => b + 256 * leNat rest

/-- Signed big-endian two's-complement value denoted by a byte list, with the
sign bit taken from the high bit of the first byte (spec §3: "Sign bit is the
high bit of the first byte"). -/
def beValue (l : List Nat) : Int :=
  (beNat l : Int) - (if byteTop (l.headD 0) then (2 : Int) ^ (8 * l.length) else 0)

/-- Two's-complement reinterpretation of an unsigned value `n` at a width of
`bits` bits. -/
def signedOf (n : Nat) (bits : Nat) : Int :=
  if 2 ^ (bits - 1) ≤ n then (n : Int) - 2 ^ bits else (n : Int)

/-- Signed little-endian two's-complement value of a byte list (the target
layout for widths `N ≤ 8`). -/
def leValue (l : List Nat) : Int := signedOf (leNat l) (8 * l.length)

/-- Value of a byte list read as `W` 64-bit little-endian words where the
FIRST word is the MOST significant (word `w` has weight `2^(64*(W-1-w))`).
This is the layout the converter actually produces for `N ∈ {16, 32}`. -/
def wordSwapValue (W : Nat) (l : List Nat) : Int :=
  signedOf (∑ w ∈ Finset.range W, leNat ((l.drop (8 * w)).take 8) * 2 ^ (64 * (W - 1 - w)))
    (8 * l.length)

/-- Value of a byte list read as `W` 64-bit little-endian words in ASCENDING
significance (word `w` has weight `2^(64*w)`); this follows the spec's (and
claim C1's) wording of the target layout for `N ∈ {16, 32}`. -/
def ascWordsValue (W : Nat) (l : List Nat) : Int :=
  signedOf (∑ w ∈ Finset.range W, leNat ((l.drop (8 * w)).take 8) * 2 ^ (64 * w))
    (8 * l.length)

/-- Representability of a signed value in `N` bytes of two's complement. -/
def fitsIn (N : Nat) (v : Int) : Prop :=
  -((2 : Int) ^ (8 * N - 1)) ≤ v ∧ v < (2 : Int) ^ (8 * N - 1)

instance (N : Nat) (v : Int) : Decidable (fitsIn N v) := by
  unfold fitsIn; infer_instance

/-- Write-out phase of `ByteArrayDecimalColumnSink::convert_decimal`
(decimal.rs lines 499-523), reached once the source is at most `N` bytes.
For `N ≤ 8` the first loop writes `dest[i] = src[src_len-1-i]` for
`i < src_len` (i.e. the reversed source) and the second loop fills
`dest[src_len..N]` with the sign byte.  Otherwise the code writes `N/8`
words; word `w`, byte `i` receives position `w*8 + 7 - i` of the
conceptual sign-extended source `ext = sign^(N-src_len) ++ src`, i.e.
word `w` is the byte-reversal of `ext[8w .. 8w+8]`. -/
def writeOut (N : Nat) (src : List Nat) : Except ErrKind (List Nat) :=
  if N ≤ 8 then
    .ok (src.reverse ++ List.replicate (N - src.length) (signExtByte (src.headD 0)))
  else
    .ok (((List.range (N / 8)).map
      (fun w => (((signExtend N src).drop (8 * w)).take 8).reverse)).flatten)

/-- `ByteArrayDecimalColumnSink::<N>::convert_decimal` (decimal.rs lines
462-524): fails on an empty source; when the source is longer than `N`,
fails unless the leading `src_len - N` bytes all equal the sign byte and the
high bit of the first retained byte agrees with the sign bit, else drops the
leading bytes; then performs the write-out. All failures are `Unsupported`. -/
def convert_decimal (N : Nat) (src0 : List Nat) : Except ErrKind (List Nat) :=
  if src0.length = 0 then .error .unsupported
  else if src0.length > N then
    if (src0.take (src0.length - N)).any
        (fun b => b != signExtByte (src0.headD 0)) then
      .error .unsupported
    else if byteTop (src0.getD (src0.length - N) 0)
        != byteTop (signExtByte (src0.headD 0)) then
      .error .unsupported
    else writeOut N (src0.drop (src0.length - N))
  else writeOut N src0

/-- The target-layout signed value of the `N` written bytes: a single
little-endian word for `N ≤ 8`, else `N/8` little-endian 64-bit words with
the FIRST word most significant (what the code produces). -/
def targetValue (N : Nat) (l : List Nat) : Int :=
  if N ≤ 8 then leValue l else wordSwapValue (N / 8) l

/-- The target-layout signed value per the spec's wording: a single
little-endian word for `N ≤ 8`, else `N/8` little-endian 64-bit words in
ASCENDING significance. -/
def targetValueAsc (N : Nat) (l : List Nat) : Int :=
  if N ≤ 8 then leValue l else ascWordsValue (N / 8) l

/-! The column sink, the null sentinels, the fixed dictionary decoder and the
fixed-decimal dispatch. -/

/-- Modelled from the spec: the width-specific NULL sentinel constants
`DECIMAL8_NULL .. DECIMAL256_NULL` live in `parquet_write::decimal`, which
is not part of the analysed source. Spec §3 fixes one constant pattern per
width ("e.g., the minimum signed value for that width"); we model each
sentinel as the minimum signed value's byte pattern in the spec's stated
target layout. The verified claims depend only on which constant is passed
where and on its width, never on the byte values themselves. -/
def DECIMAL8_NULL : List Nat := [128]

/-- Modelled from the spec: see `DECIMAL8_NULL`. -/
def DECIMAL16_NULL : List Nat := [0, 128]

/-- Modelled from the spec: see `DECIMAL8_NULL`. -/
def DECIMAL32_NULL : List Nat := [0, 0, 0, 128]

/-- Modelled from the spec: see `DECIMAL8_NULL`. -/
def DECIMAL64_NULL : List Nat := List.replicate 7 0 ++ [128]

/-- Modelled from the spec: see `DECIMAL8_NULL`. -/
def DECIMAL128_NULL : List Nat := List.replicate 15 0 ++ [128]

/-- Modelled from the spec: see `DECIMAL8_NULL`. -/
def DECIMAL256_NULL : List Nat := List.replicate 31 0 ++ [128]

/-- State of `ByteArrayDecimalColumnSink<N>` (decimal.rs 381-459). The slicer
is modelled by the list of its remaining value slices (`next()` pops the
head); `data_vec` holds the committed bytes of the column buffer. The
source's `push`/`push_slice` write through a raw pointer into reserved
capacity and only `set_len` (executed after all conversions succeed) makes
the bytes part of the vector, so an aborted batch leaves `data_vec` as it
was. Reservation/allocation failure is a collaborator concern (spec §5) and
out of scope. -/
structure ByteArrayDecimalColumnSink (N : Nat) where
  pending : List (List Nat)
  data_vec : List Nat
  null_value : List Nat

namespace ByteArrayDecimalColumnSink

/-- `push` (decimal.rs 393-405): pull one slice, convert it into the
reserved region, and commit `N` bytes; on conversion failure the length is
never updated. -/
def push {N : Nat} (s : ByteArrayDecimalColumnSink N) :
    Except ErrKind Unit × ByteArrayDecimalColumnSink N :=
  match convert_decimal N (s.pending.headD []) with
  | .error e => (.error e, { s with pending := s.pending.tail })
  | .ok bytes => (.ok (),
      { s with pending := s.pending.tail, data_vec := s.data_vec ++ bytes })

/-- The conversion loop of `push_slice`: convert `count` consecutive slices
into the staging region, stopping at the first failure. Returns the staged
bytes (committed only on overall success) and the advanced slicer. -/
def convertMany (N : Nat) : Nat → List (List Nat) →
    Except ErrKind (List Nat) × List (List Nat)
  | 0, p => (.ok [], p)
  | c + 1, p =>
    match convert_decimal N (p.headD []) with
    | .error e => (.error e, p.tail)
    | .ok b =>
      match convertMany N c p.tail with
      | (.error e, p') => (.error e, p')
      | (.ok rest, p') => (.ok (b ++ rest), p')

/-- `push_slice` (decimal.rs 407-422): convert `count` slices into reserved
capacity and `set_len` once at the end; a failure mid-batch returns before
the length update, so no byte is appended. -/
def push_slice {N : Nat} (count : Nat) (s : ByteArrayDecimalColumnSink N) :
    Except ErrKind Unit × ByteArrayDecimalColumnSink N :=
  match convertMany N count s.pending with
  | (.error e, p') => (.error e, { s with pending := p' })
  | (.ok bytes, p') => (.ok (),
      { s with pending := p', data_vec := s.data_vec ++ bytes })

/-- `push_null` (decimal.rs 424-428): `extend_from_slice(&self.null_value)`. -/
def push_null {N : Nat} (s : ByteArrayDecimalColumnSink N) :
    ByteArrayDecimalColumnSink N :=
  { s with data_vec := s.data_vec ++ s.null_value }

/-- `push_nulls` (decimal.rs 430-444): `count` back-to-back copies of the
sentinel, committed by one `set_len`. -/
def push_nulls {N : Nat} (count : Nat) (s : ByteArrayDecimalColumnSink N) :
    ByteArrayDecimalColumnSink N :=
  { s with data_vec := s.data_vec ++ (List.replicate count s.null_value).flatten }

/-- `skip` (decimal.rs 446-449): advance the slicer, no append. -/
def skip {N : Nat} (count : Nat) (s : ByteArrayDecimalColumnSink N) :
    ByteArrayDecimalColumnSink N :=
  { s with pending := s.pending.drop count }

end ByteArrayDecimalColumnSink

/-- The relevant variants of `qdb_core::col_type::ColumnTypeTag`: the six
decimal tags plus representative non-decimal tags (the full enum has more
variants, all of which take the `_ => Unsupported` arm of the decimal
dispatch). -/
inductive ColumnTypeTag where
  | Decimal8
  | Decimal16
  | Decimal32
  | Decimal64
  | Decimal128
  | Decimal256
  | Boolean
  | Long
  deriving DecidableEq

/-- Whether a tag is one of the six decimal tags. -/
def isDecimalTag : ColumnTypeTag → Bool
  | .Decimal8 | .Decimal16 | .Decimal32 | .Decimal64 | .Decimal128 | .Decimal256 => true
  | _ => false

/-- The `match target_tag` computing `target_size` that opens each
fixed-decimal entry point (decimal.rs 31-45 and repeats); non-decimal tags
take the `Unsupported` arm. -/
def decimalTargetSize : ColumnTypeTag → Except ErrKind Nat
  | .Decimal8 => .ok 1
  | .Decimal16 => .ok 2
  | .Decimal32 => .ok 4
  | .Decimal64 => .ok 8
  | .Decimal128 => .ok 16
  | .Decimal256 => .ok 32
  | _ => .error .unsupported

/-- `DictPage` (parquet2): a values buffer plus a declared value count. -/
structure DictPage where
  num_values : Nat
  buffer : List Nat
  deriving DecidableEq

/-- `RuntimeFixedDictDecoder` (decimal.rs 527-549): a fixed-stride view over
a dictionary page's buffer. -/
structure RuntimeFixedDictDecoder where
  dict_page : List Nat
  value_size : Nat
  deriving DecidableEq

/-- `RuntimeFixedDictDecoder::try_new` (decimal.rs 551-564): `Layout` error
when `value_size == 0` or when `value_size * num_values` differs from the
buffer length. -/
def RuntimeFixedDictDecoder.try_new (dict_page : DictPage) (value_size : Nat) :
    Except ErrKind RuntimeFixedDictDecoder :=
  if value_size = 0 then .error .layout
  else if value_size * dict_page.num_values ≠ dict_page.buffer.length then
    .error .layout
  else .ok ⟨dict_page.buffer, value_size⟩

/-- `get_dict_value` (decimal.rs 533-538): the slice
`dict_page[index*value_size .. (index+1)*value_size]`. -/
def RuntimeFixedDictDecoder.get_dict_value (d : RuntimeFixedDictDecoder)
    (index : Nat) : List Nat :=
  (d.dict_page.drop (index * d.value_size)).take d.value_size

/-- `len` (decimal.rs 545-548): `dict_page.len() / value_size`. -/
def RuntimeFixedDictDecoder.len (d : RuntimeFixedDictDecoder) : Nat :=
  d.dict_page.length / d.value_size

/-- `DECIMAL_DICT_ERROR_VALUE` (decimal.rs 244): the one-byte placeholder
slice `[0u8]` handed to the byte-array dictionary slicers for deferred
index errors. -/
def DECIMAL_DICT_ERROR_VALUE : List Nat := [0]

/-- The slicer+sink combination a fixed-decimal entry point commits to once
validation passes. Executing it (`decode_page0`/`decode_page0_filtered`,
collaborators outside the analysed source) is the only thing that touches
the column buffer; the entry points themselves never do. -/
inductive SinkChoice where
  | ReverseFixedColumnSink (N : Nat) (null_value : List Nat)
  | WordSwapDecimalColumnSink (N W : Nat) (null_value : List Nat)
  | SignExtendDecimalColumnSink (N : Nat) (null_value : List Nat) (src_len : Nat)
  deriving DecidableEq

/-- The per-width functions `decode_fixed_decimal_{1,2,4,8,16,32}` and their
filtered twins generated by `decode_fixed_decimal_impl!` (decimal.rs
1128-1382), modelled parametrically in the generated constants: re-check
`src_len == 0` (`Unsupported`), then pick the reverse sink — or the
word-swap sink when `words = some W` — for `src_len == target_size`, else
the sign-extend sink. -/
def decode_fixed_decimal_n (target_size : Nat) (words : Option Nat)
    (null_value : List Nat) (src_len : Nat) : Except ErrKind SinkChoice :=
  if src_len = 0 then .error .unsupported
  else if src_len = target_size then
    match words with
    | none => .ok (.ReverseFixedColumnSink target_size null_value)
    | some w => .ok (.WordSwapDecimalColumnSink target_size w null_value)
  else .ok (.SignExtendDecimalColumnSink target_size null_value src_len)

/-- `decode_fixed_decimal` (decimal.rs 21-118): resolve the target size
(failing on non-decimal tags), validate `1 ≤ src_len ≤ 32`, then dispatch to
the per-width function. The returned `SinkChoice` is what the source then
runs through `decode_page0`. -/
def decode_fixed_decimal (src_len : Nat) (target_tag : ColumnTypeTag) :
    Except ErrKind SinkChoice :=
  match decimalTargetSize target_tag with
  | .error e => .error e
  | .ok _ =>
    if src_len = 0 ∨ src_len > 32 then .error .unsupported
    else
      match target_tag with
      | .Decimal8 => decode_fixed_decimal_n 1 none DECIMAL8_NULL src_len
      | .Decimal16 => decode_fixed_decimal_n 2 none DECIMAL16_NULL src_len
      | .Decimal32 => decode_fixed_decimal_n 4 none DECIMAL32_NULL src_len
      | .Decimal64 => decode_fixed_decimal_n 8 none DECIMAL64_NULL src_len
      | .Decimal128 => decode_fixed_decimal_n 16 (some 2) DECIMAL128_NULL src_len
      | .Decimal256 => decode_fixed_decimal_n 32 (some 4) DECIMAL256_NULL src_len
      | _ => .error .unsupported

/-- `decode_fixed_decimal_filtered` (decimal.rs 742-859): identical
validation and per-width dispatch; only the driver invocation (outside the
analysed source) differs. -/
def decode_fixed_decimal_filtered (src_len : Nat) (target_tag : ColumnTypeTag) :
    Except ErrKind SinkChoice :=
  match decimalTargetSize target_tag with
  | .error e => .error e
  | .ok _ =>
    if src_len = 0 ∨ src_len > 32 then .error .unsupported
    else
      match target_tag with
      | .Decimal8 => decode_fixed_decimal_n 1 none DECIMAL8_NULL src_len
      | .Decimal16 => decode_fixed_decimal_n 2 none DECIMAL16_NULL src_len
      | .Decimal32 => decode_fixed_decimal_n 4 none DECIMAL32_NULL src_len
      | .Decimal64 => decode_fixed_decimal_n 8 none DECIMAL64_NULL src_len
      | .Decimal128 => decode_fixed_decimal_n 16 (some 2) DECIMAL128_NULL src_len
      | .Decimal256 => decode_fixed_decimal_n 32 (some 4) DECIMAL256_NULL src_len
      | _ => .error .unsupported

/-- `decode_fixed_decimal_with_slicer` (decimal.rs 566-739): target-size
match, `1 ≤ src_len ≤ 32` validation, then `src_len == N` picks the cheap
reverse / word-swap sink and every other size the sign-extend sink. -/
def decode_fixed_decimal_with_slicer (src_len : Nat) (target_tag : ColumnTypeTag) :
    Except ErrKind SinkChoice :=
  match decimalTargetSize target_tag with
  | .error e => .error e
  | .ok _ =>
    if src_len = 0 ∨ src_len > 32 then .error .unsupported
    else
      match target_tag with
      | .Decimal8 =>
        if src_len = 1 then .ok (.ReverseFixedColumnSink 1 DECIMAL8_NULL)
        else .ok (.SignExtendDecimalColumnSink 1 DECIMAL8_NULL src_len)
      | .Decimal16 =>
        if src_len = 2 then .ok (.ReverseFixedColumnSink 2 DECIMAL16_NULL)
        else .ok (.SignExtendDecimalColumnSink 2 DECIMAL16_NULL src_len)
      | .Decimal32 =>
        if src_len = 4 then .ok (.ReverseFixedColumnSink 4 DECIMAL32_NULL)
        else .ok (.SignExtendDecimalColumnSink 4 DECIMAL32_NULL src_len)
      | .Decimal64 =>
        if src_len = 8 then .ok (.ReverseFixedColumnSink 8 DECIMAL64_NULL)
        else .ok (.SignExtendDecimalColumnSink 8 DECIMAL64_NULL src_len)
      | .Decimal128 =>
        if src_len = 16 then .ok (.WordSwapDecimalColumnSink 16 2 DECIMAL128_NULL)
        else .ok (.SignExtendDecimalColumnSink 16 DECIMAL128_NULL src_len)
      | .Decimal256 =>
        if src_len = 32 then .ok (.WordSwapDecimalColumnSink 32 4 DECIMAL256_NULL)
        else .ok (.SignExtendDecimalColumnSink 32 DECIMAL256_NULL src_len)
      | _ => .error .unsupported

/-- `decode_fixed_decimal_filtered_with_slicer` (decimal.rs 901-1126):
byte-for-byte the same validation and sink selection as the unfiltered
variant; only the driver call differs. -/
def decode_fixed_decimal_filtered_with_slicer (src_len : Nat)
    (target_tag : ColumnTypeTag) : Except ErrKind SinkChoice :=
  decode_fixed_decimal_with_slicer src_len target_tag

/-- Modelled from the spec: `RleDictionarySlicer::try_new`
(`parquet_read::slicer::rle`, not part of the analysed source) prepares the
RLE/bit-packed index stream, whose wire format (spec §6) starts with a
one-byte bit-width prefix; a stream too short to hold it is a malformed RLE
stream, a `Layout` error (spec §7). The decoded indices are irrelevant to
the dispatch-validation claim, so the success value is `Unit`. -/
def RleDictionarySlicer.try_new (values_buffer : List Nat) : Except ErrKind Unit :=
  if values_buffer.length = 0 then .error .layout else .ok ()

/-- `decode_fixed_decimal_dict` (decimal.rs 121-142): build the fixed
dictionary decoder (its `?` can surface a `Layout` error BEFORE the tag and
`src_len` validation), build the RLE slicer over `values_buffer` with the
all-zero `error_value` of length `src_len`, then validate and select via
`decode_fixed_decimal_with_slicer`. -/
def decode_fixed_decimal_dict (dict_page : DictPage) (values_buffer : List Nat)
    (src_len : Nat) (target_tag : ColumnTypeTag) : Except ErrKind SinkChoice :=
  match RuntimeFixedDictDecoder.try_new dict_page src_len with
  | .error e => .error e
  | .ok _ =>
    match RleDictionarySlicer.try_new values_buffer with
    | .error e => .error e
    | .ok _ => decode_fixed_decimal_with_slicer src_len target_tag

/-- `decode_fixed_decimal_filtered_dict` (decimal.rs 862-898): same
construction order as the unfiltered dict entry point, ending in the
filtered with-slicer dispatch. -/
def decode_fixed_decimal_filtered_dict (dict_page : DictPage)
    (values_buffer : List Nat) (src_len : Nat) (target_tag : ColumnTypeTag) :
    Except ErrKind SinkChoice :=
  match RuntimeFixedDictDecoder.try_new dict_page src_len with
  | .error e => .error e
  | .ok _ =>
    match RleDictionarySlicer.try_new values_buffer with
    | .error e => .error e
    | .ok _ => decode_fixed_decimal_filtered_with_slicer src_len target_tag

/-- The (width, sentinel) pair with which
`decode_byte_array_decimal_with_slicer` (decimal.rs 246-297) constructs
`ByteArrayDecimalColumnSink::<N>` for each target tag; non-decimal tags take
the `Unsupported` arm. The page walk (`decode_page0`) is a collaborator
outside the analysed source. -/
def byte_array_decimal_sink_for : ColumnTypeTag → Except ErrKind (Nat × List Nat)
  | .Decimal8 => .ok (1, DECIMAL8_NULL)
  | .Decimal16 => .ok (2, DECIMAL16_NULL)
  | .Decimal32 => .ok (4, DECIMAL32_NULL)
  | .Decimal64 => .ok (8, DECIMAL64_NULL)
  | .Decimal128 => .ok (16, DECIMAL128_NULL)
  | .Decimal256 => .ok (32, DECIMAL256_NULL)
  | _ => .error .unsupported

/-- Write trace of the converter's write-out phase: the `(dest index, byte)`
raw-pointer stores in program order. For `N ≤ 8` the first loop stores
`dest[i] = src[src_len-1-i]` for `i < src_len` and the second loop stores
the sign byte at `i ∈ [src_len, N)`; otherwise word `w`'s loop stores at
`w*8 + i` the byte of `extended_pos = w*8 + 7 - i`. -/
def writeTrace (N : Nat) (src : List Nat) : List (Nat × Nat) :=
  if N ≤ 8 then
    ((List.range src.length).map (fun i => (i, src.getD (src.length - 1 - i) 0))) ++
      ((List.range (N - src.length)).map
        (fun i => (src.length + i, signExtByte (src.headD 0))))
  else
    (((List.range (N / 8)).map (fun w =>
      (List.range 8).map (fun i => (w * 8 + i,
        if w * 8 + 7 - i < N - src.length then signExtByte (src.headD 0)
        else src.getD (w * 8 + 7 - i - (N - src.length)) 0)))).flatten)

/-- Raw-pointer store trace of `convert_decimal`: the stores it performs
through `dest`, in program order, paired with the outcome. Every `return
Err(...)` in the source (decimal.rs 465-494) precedes the write-out loops,
so the trace of an erroring call is empty. -/
def convert_decimal_trace (N : Nat) (src0 : List Nat) :
    List (Nat × Nat) × Except ErrKind Unit :=
  if src0.length = 0 then ([], .error .unsupported)
  else if src0.length > N then
    if (src0.take (src0.length - N)).any
        (fun b => b != signExtByte (src0.headD 0)) then
      ([], .error .unsupported)
    else if byteTop (src0.getD (src0.length - N) 0)
        != byteTop (signExtByte (src0.headD 0)) then
      ([], .error .unsupported)
    else (writeTrace N (src0.drop (src0.length - N)), .ok ())
  else (writeTrace N src0, .ok ())


/-! Arithmetic and list helper lemmas. -/

lemma pow28 (n : Nat) : (2 : Nat) ^ (8 * n) = 256 ^ n := by
  rw [pow_mul]; norm_num

lemma pow28I (n : Nat) : (2 : Int) ^ (8 * n) = 256 ^ n := by
  rw [pow_mul]; norm_num

lemma pow8sub1 {n : Nat} (h : 1 ≤ n) : (2 : Nat) ^ (8 * n - 1) = 128 * 256 ^ (n - 1) := by
  have h8 : 8 * n - 1 = 7 + 8 * (n - 1) := by omega
  rw [h8, pow_add, pow_mul]; norm_num

lemma leNat_append (a b : List Nat) :
    leNat (a ++ b) = leNat a + 256 ^ a.length * leNat b := by
  induction a with
  | nil => simp [leNat]
  | cons x a ih => simp [leNat, ih]; ring

lemma beNat_append (a b : List Nat) :
    beNat (a ++ b) = beNat a * 256 ^ b.length + beNat b := by
  induction a with
  | nil => simp [beNat]
  | cons x a ih =>
    simp only [List.cons_append, beNat, ih, List.length_append, List.append_eq]
    rw [pow_add]; ring

lemma leNat_reverse (l : List Nat) : leNat l.reverse = beNat l := by
  induction l with
  | nil => rfl
  | cons x l ih =>
    simp only [List.reverse_cons, leNat_append, ih, beNat, leNat, List.length_reverse]
    ring

lemma beNat_lt {l : List Nat} (h : ∀ b ∈ l, b < 256) : beNat l < 256 ^ l.length := by
  induction l with
  | nil => simp [beNat]
  | cons x l ih =>
    have hx : x < 256 := h x (List.mem_cons_self x l)
    have hrest := ih (fun b hb => h b (List.mem_cons_of_mem x hb))
    calc beNat (x :: l) = x * 256 ^ l.length + beNat l := rfl
      _ < x * 256 ^ l.length + 256 ^ l.length := by omega
      _ = (x + 1) * 256 ^ l.length := by ring
      _ ≤ 256 * 256 ^ l.length := Nat.mul_le_mul_right _ (by omega)
      _ = 256 ^ (x :: l).length := by rw [List.length_cons, pow_succ]; ring

lemma beNat_replicate_zero (k : Nat) : beNat (List.replicate k 0) = 0 := by
  induction k with
  | zero => rfl
  | succ k ih => simp [List.replicate_succ, beNat, ih]

lemma beNat_replicate_255 (k : Nat) : beNat (List.replicate k 255) = 256 ^ k - 1 := by
  induction k with
  | zero => rfl
  | succ k ih =>
    have hpos : 1 ≤ 256 ^ k := Nat.one_le_pow _ _ (by omega)
    simp only [List.replicate_succ, beNat, ih, List.length_replicate, pow_succ]
    omega

set_option maxRecDepth 4000 in
lemma byteTop_iff {b : Nat} (h : b < 256) : byteTop b = true ↔ 128 ≤ b := by
  have : ∀ c : Fin 256, (byteTop c.1 = true ↔ 128 ≤ c.1) := by decide
  exact this ⟨b, h⟩

lemma byteTop_signExtByte (b : Nat) : byteTop (signExtByte b) = byteTop b := by
  unfold signExtByte
  cases h : byteTop b <;> simp [h] <;> decide

lemma signExtByte_idem (b : Nat) : signExtByte (signExtByte b) = signExtByte b := by
  unfold signExtByte
  cases h : byteTop b <;> simp [h] <;> decide

lemma signExtByte_lt (b : Nat) : signExtByte b < 256 := by
  unfold signExtByte; split <;> omega

lemma signExtByte_eq_of_byteTop {a b : Nat} (h : byteTop a = byteTop b) :
    signExtByte a = signExtByte b := by
  unfold signExtByte; rw [h]

lemma head_top_iff {l : List Nat} (hl : l ≠ []) (hb : ∀ b ∈ l, b < 256) :
    byteTop (l.headD 0) = true ↔ 128 * 256 ^ (l.length - 1) ≤ beNat l := by
  match l with
  | x :: rest =>
    have hx : x < 256 := hb x (List.mem_cons_self x rest)
    have hrest : beNat rest < 256 ^ rest.length :=
      beNat_lt (fun b h => hb b (List.mem_cons_of_mem x h))
    simp only [List.headD_cons, List.length_cons, Nat.add_sub_cancel]
    rw [byteTop_iff hx]
    constructor
    · intro h128
      calc 128 * 256 ^ rest.length ≤ x * 256 ^ rest.length :=
            Nat.mul_le_mul_right _ h128
        _ ≤ beNat (x :: rest) := Nat.le_add_right _ _
    · intro hle
      by_contra hlt
      push_neg at hlt
      have : x * 256 ^ rest.length ≤ 127 * 256 ^ rest.length :=
        Nat.mul_le_mul_right _ (by omega)
      have : beNat (x :: rest) < 128 * 256 ^ rest.length := by
        show x * 256 ^ rest.length + beNat rest < _
        calc x * 256 ^ rest.length + beNat rest
            ≤ 127 * 256 ^ rest.length + beNat rest := by omega
          _ < 127 * 256 ^ rest.length + 256 ^ rest.length := by omega
          _ = 128 * 256 ^ rest.length := by ring
      omega

lemma beValue_eq_signedOf {l : List Nat} (hl : l ≠ []) (hb : ∀ b ∈ l, b < 256) :
    beValue l = signedOf (beNat l) (8 * l.length) := by
  have hlen : 1 ≤ l.length := List.length_pos.mpr hl
  have hbridge : (2 : Nat) ^ (8 * l.length - 1) = 128 * 256 ^ (l.length - 1) :=
    pow8sub1 hlen
  unfold beValue signedOf
  cases h : byteTop (l.headD 0) with
  | true =>
    have hge : (2 : Nat) ^ (8 * l.length - 1) ≤ beNat l := by
      rw [hbridge]; exact (head_top_iff hl hb).mp h
    rw [if_pos rfl, if_pos hge]
  | false =>
    have hlt : ¬ ((2 : Nat) ^ (8 * l.length - 1) ≤ beNat l) := by
      rw [hbridge]
      intro hc
      have htop := (head_top_iff hl hb).mpr hc
      rw [h] at htop
      exact absurd htop (by decide)
    rw [if_neg (by decide : ¬ ((false : Bool) = true)), if_neg hlt, sub_zero]

lemma beValue_signExt_cons (l : List Nat) :
    beValue (signExtByte (l.headD 0) :: l) = beValue l := by
  cases h : byteTop (l.headD 0) with
  | true =>
    have hs : signExtByte (l.headD 0) = 255 := by
      simp only [signExtByte, h]
      rfl
    have h255 : byteTop 255 = true := by decide
    rw [hs]
    unfold beValue
    simp only [List.headD_cons, List.length_cons, beNat, h, h255, if_true]
    rw [pow28I, pow28I]
    push_cast
    ring
  | false =>
    have hs : signExtByte (l.headD 0) = 0 := by
      simp only [signExtByte, h]
      rfl
    have h0 : byteTop 0 = false := by decide
    rw [hs]
    unfold beValue
    simp only [List.headD_cons, List.length_cons, beNat, h, h0, Bool.false_eq_true,
      if_false]
    push_cast
    ring

lemma beValue_replicate_signExt {l : List Nat} (hl : l ≠ []) (k : Nat) :
    beValue (List.replicate k (signExtByte (l.headD 0)) ++ l) = beValue l := by
  induction k with
  | zero => simp
  | succ k ih =>
    set s := signExtByte (l.headD 0) with hs
    set m := List.replicate k s ++ l with hm
    have hmne : m ≠ [] := by
      rw [hm]
      intro hc
      exact hl (List.append_eq_nil.mp hc).2
    have hhead : signExtByte (m.headD 0) = s := by
      rw [hm]
      cases k with
      | zero => simp [hs]
      | succ k => simp [List.replicate_succ, hs, signExtByte_idem]
    have : List.replicate (k + 1) s ++ l = signExtByte (m.headD 0) :: m := by
      rw [hhead, hm, List.replicate_succ, List.cons_append]
    rw [this, beValue_signExt_cons m, ih]

/-- If a signed big-endian value of `1 + rest.length` bytes fits in `N` bytes
(`N ≤ rest.length`), then its first byte is forced to be the pure sign byte,
the next byte's high bit agrees with the sign, and dropping the first byte
preserves the value. -/
lemma fitsIn_step {N : Nat} (hN : 1 ≤ N) (b : Nat) (rest : List Nat)
    (hb : b < 256) (hrest : ∀ c ∈ rest, c < 256)
    (hrne : rest ≠ []) (hlen : N ≤ rest.length)
    (hfit : fitsIn N (beValue (b :: rest))) :
    b = signExtByte b ∧ byteTop (rest.headD 0) = byteTop b ∧
      beValue rest = beValue (b :: rest) := by
  have hL1 : 1 ≤ rest.length := le_trans hN hlen
  have hXpos : (0 : Int) < 256 ^ rest.length := by positivity
  have hnlt : (beNat rest : Int) < 256 ^ rest.length := by exact_mod_cast beNat_lt hrest
  have hn0 : (0 : Int) ≤ (beNat rest : Int) := Int.ofNat_nonneg _
  have hBpos : (0 : Int) < 2 ^ (8 * N - 1) := by positivity
  have hpow2 : ((2 : Int) ^ (8 * N - 1)) * 2 ≤ 256 ^ rest.length := by
    have h1 : (2 : Nat) ^ (8 * N - 1) * 2 = 2 ^ (8 * N) := by
      rw [← pow_succ]; congr 1; omega
    have h2 : (2 : Nat) ^ (8 * N) ≤ 2 ^ (8 * rest.length) :=
      Nat.pow_le_pow_right (by omega) (by omega)
    have h3 : (2 : Nat) ^ (8 * rest.length) = 256 ^ rest.length := pow28 _
    exact_mod_cast h1 ▸ h3 ▸ h2
  have hXeq2T : (256 : Int) ^ rest.length = 2 * (128 * 256 ^ (rest.length - 1)) := by
    have : (256 : Nat) ^ rest.length = 2 * (128 * 256 ^ (rest.length - 1)) := by
      conv_lhs => rw [show rest.length = (rest.length - 1) + 1 by omega]
      rw [pow_succ]; ring
    exact_mod_cast this
  have hPleT : (2 : Int) ^ (8 * N - 1) ≤ 128 * 256 ^ (rest.length - 1) := by
    have h1 : (2 : Nat) ^ (8 * N - 1) ≤ 2 ^ (8 * rest.length - 1) :=
      Nat.pow_le_pow_right (by omega) (by omega)
    have h2 : (2 : Nat) ^ (8 * rest.length - 1) = 128 * 256 ^ (rest.length - 1) :=
      pow8sub1 hL1
    exact_mod_cast h2 ▸ h1
  cases hbt : byteTop b with
  | true =>
    have hv : beValue (b :: rest) =
        (b : Int) * 256 ^ rest.length + (beNat rest : Int) - 256 * 256 ^ rest.length := by
      unfold beValue
      simp only [List.headD_cons, List.length_cons, beNat, hbt, if_true]
      rw [pow28I]
      push_cast
      rw [pow_succ]
      ring
    have hb128 : 128 ≤ b := (byteTop_iff hb).mp hbt
    have hb255 : b = 255 := by
      by_contra hne
      have hble : b ≤ 254 := by omega
      have hmul : (b : Int) * 256 ^ rest.length ≤ 254 * 256 ^ rest.length :=
        mul_le_mul_of_nonneg_right (by exact_mod_cast hble) (le_of_lt hXpos)
      have h1 := hfit.1
      rw [hv] at h1
      linarith
    subst hb255
    have hsign : signExtByte 255 = 255 := by decide
    have h1 := hfit.1
    rw [hv] at h1
    push_cast at h1
    have hnT : (128 * 256 ^ (rest.length - 1) : Int) ≤ (beNat rest : Int) := by
      linarith
    have htopr : byteTop (rest.headD 0) = true :=
      (head_top_iff hrne hrest).mpr (by exact_mod_cast hnT)
    have hvr : beValue rest = (beNat rest : Int) - 256 ^ rest.length := by
      unfold beValue
      simp only [htopr, if_true]
      rw [pow28I]
    refine ⟨hsign.symm, htopr.trans hbt.symm, ?_⟩
    rw [hvr, hv]
    push_cast
    ring
  | false =>
    have hv : beValue (b :: rest) =
        (b : Int) * 256 ^ rest.length + (beNat rest : Int) := by
      unfold beValue
      simp only [List.headD_cons, List.length_cons, beNat, hbt, Bool.false_eq_true,
        if_false]
      push_cast
      ring
    have hb0 : b = 0 := by
      by_contra hne
      have hble : 1 ≤ b := by omega
      have hmul : (1 : Int) * 256 ^ rest.length ≤ (b : Int) * 256 ^ rest.length :=
        mul_le_mul_of_nonneg_right (by exact_mod_cast hble) (le_of_lt hXpos)
      have h2 := hfit.2
      rw [hv] at h2
      linarith
    subst hb0
    have hsign : signExtByte 0 = 0 := by decide
    have h2 := hfit.2
    rw [hv] at h2
    push_cast at h2
    have hnT : (beNat rest : Int) < 128 * 256 ^ (rest.length - 1) := by
      linarith
    have htopr : byteTop (rest.headD 0) = false := by
      cases hc : byteTop (rest.headD 0) with
      | false => rfl
      | true =>
        have := (head_top_iff hrne hrest).mp hc
        have : (128 * 256 ^ (rest.length - 1) : Int) ≤ (beNat rest : Int) := by
          exact_mod_cast this
        linarith
    have hvr : beValue rest = (beNat rest : Int) := by
      unfold beValue
      simp only [htopr, Bool.false_eq_true, if_false]
      ring
    refine ⟨hsign.symm, htopr.trans hbt.symm, ?_⟩
    rw [hvr, hv]
    push_cast
    ring

/-- Iterated form: if a value of `N + k` bytes fits in `N` bytes, the leading
`k` bytes are all the sign byte, the high bit of byte `k` agrees with the
sign bit, and dropping the leading `k` bytes preserves the signed value. -/
lemma fits_drop {N : Nat} (hN : 1 ≤ N) :
    ∀ (k : Nat) (l : List Nat), 1 ≤ k → (∀ b ∈ l, b < 256) →
      l.length = N + k → fitsIn N (beValue l) →
      (∀ b ∈ l.take k, b = signExtByte (l.headD 0)) ∧
        byteTop (l.getD k 0) = byteTop (l.headD 0) ∧
        beValue (l.drop k) = beValue l := by
  intro k
  induction k with
  | zero => intro l hk; omega
  | succ k ih =>
    intro l hk hb hlen hfit
    match l with
    | b :: rest =>
      have hbb : b < 256 := hb b (List.mem_cons_self b rest)
      have hbrest : ∀ c ∈ rest, c < 256 := fun c hc => hb c (List.mem_cons_of_mem b hc)
      have hrlen : rest.length = N + k := by
        have := hlen; simp only [List.length_cons] at this; omega
      have hrne : rest ≠ [] := by
        intro hc; rw [hc] at hrlen; simp at hrlen; omega
      obtain ⟨hbs, hbt, hval⟩ :=
        fitsIn_step hN b rest hbb hbrest hrne (by omega) hfit
      have hfit' : fitsIn N (beValue rest) := by rw [hval]; exact hfit
      cases Nat.eq_zero_or_pos k with
      | inl hk0 =>
        subst hk0
        refine ⟨?_, ?_, ?_⟩
        · intro c hc
          simp only [List.take_succ_cons, List.take_zero] at hc
          rcases List.mem_singleton.mp hc with rfl
          simpa using hbs
        · have : (b :: rest).getD 1 0 = rest.headD 0 := by
            cases rest with
            | nil => exact absurd rfl hrne
            | cons x t => rfl
          rw [this]
          simpa using hbt
        · simpa using hval
      | inr hkpos =>
        obtain ⟨ih1, ih2, ih3⟩ := ih rest hkpos hbrest hrlen hfit'
        refine ⟨?_, ?_, ?_⟩
        · intro c hc
          rw [List.take_succ_cons] at hc
          rcases List.mem_cons.mp hc with rfl | hc'
          · simpa using hbs
          · have := ih1 c hc'
            rw [this]
            simp only [List.headD_cons]
            exact signExtByte_eq_of_byteTop hbt
        · rw [List.getD_cons_succ, ih2]
          simpa using hbt
        · rw [List.drop_succ_cons, ih3]
          simpa using hval

lemma getD_map_range {α : Type} (f : Nat → α) {W w : Nat} (h : w < W) (d : α) :
    ((List.range W).map f).getD w d = f w := by
  rw [List.getD_eq_getElem _ d (by simpa using h)]
  simp

lemma flatten_length_of_chunks (cs : List (List Nat)) (h : ∀ c ∈ cs, c.length = 8) :
    cs.flatten.length = 8 * cs.length := by
  induction cs with
  | nil => simp
  | cons c cs ih =>
    have hc : c.length = 8 := h c (List.mem_cons_self c cs)
    have ih' := ih (fun c' hc' => h c' (List.mem_cons_of_mem c hc'))
    simp only [List.flatten_cons, List.length_append, List.length_cons, ih', hc]
    ring

/-- Extracting the `w`-th 8-byte chunk from a flattening of 8-byte chunks. -/
lemma flatten_chunk : ∀ (cs : List (List Nat)) (w : Nat),
    (∀ c ∈ cs, c.length = 8) → w < cs.length →
    ((cs.flatten).drop (8 * w)).take 8 = cs.getD w [] := by
  intro cs
  induction cs with
  | nil => intro w _ hw; simp at hw
  | cons c cs ih =>
    intro w hlen hw
    cases w with
    | zero =>
      have hc : c.length = 8 := hlen c (List.mem_cons_self c cs)
      simp only [Nat.mul_zero, List.drop_zero, List.flatten_cons, List.getD_cons_zero]
      rw [← hc, List.take_left]
    | succ w =>
      have hc : c.length = 8 := hlen c (List.mem_cons_self c cs)
      have h8 : 8 * (w + 1) = c.length + 8 * w := by rw [hc]; ring
      simp only [List.flatten_cons, List.getD_cons_succ]
      rw [h8, List.drop_append]
      exact ih w (fun c' hc' => hlen c' (List.mem_cons_of_mem c hc'))
        (by simpa using hw)

/-- Reading a list of length `8 * W` as `W` big-endian 8-byte chunks, chunk 0
most significant, recovers its big-endian value. -/
lemma beNat_chunks : ∀ (W : Nat) (l : List Nat), l.length = 8 * W →
    ∑ w ∈ Finset.range W, beNat ((l.drop (8 * w)).take 8) * 2 ^ (64 * (W - 1 - w)) =
      beNat l := by
  intro W
  induction W with
  | zero =>
    intro l hl
    have hl0 : l = [] := List.length_eq_zero.mp (by omega)
    rw [hl0]
    simp [beNat]
  | succ W ih =>
    intro l hl
    have hlt : (l.take (8 * W)).length = 8 * W := by
      rw [List.length_take]; omega
    have hld : (l.drop (8 * W)).length = 8 := by
      rw [List.length_drop]; omega
    rw [Finset.sum_range_succ]
    have hlast : beNat ((l.drop (8 * W)).take 8) * 2 ^ (64 * (W + 1 - 1 - W)) =
        beNat (l.drop (8 * W)) := by
      rw [List.take_of_length_le (by omega), show W + 1 - 1 - W = 0 by omega]
      ring
    have hsum : ∑ w ∈ Finset.range W,
        beNat ((l.drop (8 * w)).take 8) * 2 ^ (64 * (W + 1 - 1 - w)) =
        (∑ w ∈ Finset.range W,
          beNat (((l.take (8 * W)).drop (8 * w)).take 8) * 2 ^ (64 * (W - 1 - w))) *
          2 ^ 64 := by
      rw [Finset.sum_mul]
      refine Finset.sum_congr rfl ?_
      intro w hw
      have hwW : w < W := Finset.mem_range.mp hw
      have hchunk : ((l.take (8 * W)).drop (8 * w)).take 8 = (l.drop (8 * w)).take 8 := by
        rw [List.drop_take, List.take_take, min_eq_left (by omega)]
      have hexp : 64 * (W + 1 - 1 - w) = 64 * (W - 1 - w) + 64 := by omega
      rw [hchunk, hexp, pow_add]
      ring
    rw [hlast, hsum, ih (l.take (8 * W)) hlt]
    have hsplit : beNat l = beNat (l.take (8 * W)) * 256 ^ 8 + beNat (l.drop (8 * W)) := by
      conv_lhs => rw [← List.take_append_drop (8 * W) l]
      rw [beNat_append, hld]
    rw [hsplit]
    norm_num

lemma signExtend_length {N : Nat} {src : List Nat} (h : src.length ≤ N) :
    (signExtend N src).length = N := by
  simp only [signExtend, List.length_append, List.length_replicate]
  omega

lemma signExtend_bytes {N : Nat} {src : List Nat} (hb : ∀ b ∈ src, b < 256) :
    ∀ b ∈ signExtend N src, b < 256 := by
  intro b hbm
  rcases List.mem_append.mp hbm with h | h
  · rw [List.eq_of_mem_replicate h]
    exact signExtByte_lt _
  · exact hb b h

lemma signExtend_beValue {N : Nat} {src : List Nat} (hne : src ≠ []) :
    beValue (signExtend N src) = beValue src :=
  beValue_replicate_signExt hne _

/-- Value of the `N ≤ 8` write-out: the reversed-and-padded bytes,
little-endian signed, denote the source's big-endian signed value. -/
lemma leValue_reverse_pad {N : Nat} {src : List Nat} (hne : src ≠ [])
    (hb : ∀ b ∈ src, b < 256) (hSN : src.length ≤ N) :
    leValue (src.reverse ++ List.replicate (N - src.length) (signExtByte (src.headD 0))) =
      beValue src := by
  have hN1 : 1 ≤ N := le_trans (List.length_pos.mpr hne) hSN
  have hrev : src.reverse ++ List.replicate (N - src.length) (signExtByte (src.headD 0)) =
      (signExtend N src).reverse := by
    rw [signExtend, List.reverse_append, List.reverse_replicate]
  have hne' : signExtend N src ≠ [] := by
    intro hc
    have := signExtend_length (N := N) hSN
    rw [hc] at this
    simp at this
    omega
  have hval := beValue_eq_signedOf hne' (signExtend_bytes hb)
  rw [signExtend_length hSN] at hval
  rw [hrev]
  unfold leValue
  rw [leNat_reverse, List.length_reverse, signExtend_length hSN, ← hval,
    signExtend_beValue hne]

/-- Value of the multi-word write-out: the per-word byte reversal of the
sign-extended source, read with the FIRST word most significant, denotes the
source's big-endian signed value. -/
lemma wordSwapValue_writeOut {N : Nat} {src : List Nat} (hne : src ≠ [])
    (hb : ∀ b ∈ src, b < 256) (hSN : src.length ≤ N) (hdvd : 8 ∣ N) (hN8 : ¬ N ≤ 8) :
    wordSwapValue (N / 8)
      (((List.range (N / 8)).map
        (fun w => (((signExtend N src).drop (8 * w)).take 8).reverse)).flatten) =
      beValue src := by
  have hWN : 8 * (N / 8) = N := Nat.mul_div_cancel' hdvd
  set W := N / 8 with hW
  set ext := signExtend N src with hext
  have hextlen : ext.length = N := signExtend_length hSN
  set cs := (List.range W).map (fun w => ((ext.drop (8 * w)).take 8).reverse) with hcs
  have hcslen : cs.length = W := by simp [hcs]
  have hchunklen : ∀ c ∈ cs, c.length = 8 := by
    intro c hc
    rw [hcs] at hc
    rcases List.mem_map.mp hc with ⟨w, hw, rfl⟩
    have hwW : w < W := by simpa using hw
    rw [List.length_reverse, List.length_take, List.length_drop, hextlen]
    omega
  have hflatlen : cs.flatten.length = N := by
    rw [flatten_length_of_chunks cs hchunklen, hcslen, hWN]
  unfold wordSwapValue
  rw [hflatlen]
  have hsum : ∑ w ∈ Finset.range W,
      leNat ((cs.flatten.drop (8 * w)).take 8) * 2 ^ (64 * (W - 1 - w)) =
      beNat ext := by
    rw [← beNat_chunks W ext (by omega)]
    refine Finset.sum_congr rfl ?_
    intro w hw
    have hwW : w < W := Finset.mem_range.mp hw
    rw [flatten_chunk cs w hchunklen (by omega), hcs,
      getD_map_range _ hwW, leNat_reverse]
  have hne' : ext ≠ [] := by
    intro hc
    rw [hc] at hextlen
    simp at hextlen
    omega
  have hval := beValue_eq_signedOf hne' (signExtend_bytes (N := N) hb)
  rw [hextlen] at hval
  rw [hsum, ← hval, hext, signExtend_beValue hne]

lemma convert_decimal_eq_writeOut {N : Nat} {src : List Nat} (hne : src ≠ [])
    (hSN : src.length ≤ N) : convert_decimal N src = writeOut N src := by
  unfold convert_decimal
  rw [if_neg (fun hc => hne (List.length_eq_zero.mp hc)), if_neg (by omega)]

lemma convert_decimal_trunc {N : Nat} {src : List Nat} (hgt : src.length > N)
    (hall : ∀ b ∈ src.take (src.length - N), b = signExtByte (src.headD 0))
    (hmsb : byteTop (src.getD (src.length - N) 0) = byteTop (src.headD 0)) :
    convert_decimal N src = writeOut N (src.drop (src.length - N)) := by
  unfold convert_decimal
  rw [if_neg (by omega), if_pos hgt]
  rw [if_neg ?hany, if_neg ?hbne]
  case hany =>
    intro hc
    rcases List.any_eq_true.mp hc with ⟨b, hbmem, hbne⟩
    rw [hall b hbmem] at hbne
    simp at hbne
  case hbne =>
    have heq : byteTop (src.getD (src.length - N) 0) = byteTop (signExtByte (src.headD 0)) :=
      hmsb.trans (byteTop_signExtByte _).symm
    intro hc
    rw [heq] at hc
    simp at hc

lemma writeOut_isOk (N : Nat) (src : List Nat) : ∃ d, writeOut N src = .ok d := by
  unfold writeOut
  by_cases h : N ≤ 8
  · exact ⟨_, if_pos h⟩
  · exact ⟨_, if_neg h⟩

/-- Successful write-out preserves the signed value under the layout the code
actually produces. -/
lemma writeOut_value {N : Nat} {src : List Nat} (hne : src ≠ [])
    (hb : ∀ b ∈ src, b < 256) (hSN : src.length ≤ N) (hN : N ≤ 8 ∨ 8 ∣ N) :
    ∃ dest, writeOut N src = .ok dest ∧ targetValue N dest = beValue src := by
  by_cases h8 : N ≤ 8
  · refine ⟨_, by rw [writeOut, if_pos h8], ?_⟩
    rw [targetValue, if_pos h8]
    exact leValue_reverse_pad hne hb hSN
  · obtain hdvd := hN.resolve_left h8
    refine ⟨_, by rw [writeOut, if_neg h8], ?_⟩
    rw [targetValue, if_neg h8]
    exact wordSwapValue_writeOut hne hb hSN hdvd h8

set_option maxRecDepth 20000 in
/-- C1 (counterexample): the claim as stated is false. Converting the 8-byte
big-endian source `00 00 00 00 00 00 00 01` (value 1, representable in 16
bytes) to `N = 16` succeeds, but the written bytes reinterpreted with the
words in ASCENDING significance (as the claim's target layout says) denote
`2^64`, not 1: the converter puts the most-significant word first. -/
theorem convert_decimal_asc_counterexample :
    beValue [0, 0, 0, 0, 0, 0, 0, 1] = 1 ∧
    fitsIn 16 (beValue [0, 0, 0, 0, 0, 0, 0, 1]) ∧
    convert_decimal 16 [0, 0, 0, 0, 0, 0, 0, 1] =
      .ok [0, 0, 0, 0, 0, 0, 0, 0, 1, 0, 0, 0, 0, 0, 0, 0] ∧
    targetValueAsc 16 [0, 0, 0, 0, 0, 0, 0, 0, 1, 0, 0, 0, 0, 0, 0, 0] = 2 ^ 64 ∧
    ((2 : Int) ^ 64 ≠ 1) := by
  refine ⟨by decide, by decide, ?_, ?_, by decide⟩
  · decide
  · decide

/-- C1 (amended): value preservation of the converter. For every source byte
slice of length `1 ≤ S ≤ 32` and target width `N ∈ {1,2,4,8,16,32}`, if the
signed big-endian integer denoted by the source is representable in `N`
bytes, then `convert_decimal` succeeds and the `N` written bytes denote the
same signed integer in the target layout — a single little-endian word for
`N ≤ 8`, and for `N ∈ {16,32}` `N/8` little-endian 64-bit words with the
FIRST word the most significant (not ascending as the spec claims). -/
theorem convert_decimal_value_preservation (src : List Nat) (N : Nat)
    (hb : ∀ b ∈ src, b < 256) (hS1 : 1 ≤ src.length) (hS32 : src.length ≤ 32)
    (hN : N = 1 ∨ N = 2 ∨ N = 4 ∨ N = 8 ∨ N = 16 ∨ N = 32)
    (hfit : fitsIn N (beValue src)) :
    ∃ dest, convert_decimal N src = .ok dest ∧ targetValue N dest = beValue src := by
  have hne : src ≠ [] := by
    intro hc
    rw [hc] at hS1
    simp at hS1
  have hN1 : 1 ≤ N := by rcases hN with h | h | h | h | h | h <;> omega
  have hN8 : N ≤ 8 ∨ 8 ∣ N := by
    rcases hN with rfl | rfl | rfl | rfl | rfl | rfl
    · exact Or.inl (by omega)
    · exact Or.inl (by omega)
    · exact Or.inl (by omega)
    · exact Or.inl (by omega)
    · exact Or.inr (by decide)
    · exact Or.inr (by decide)
  by_cases hgt : src.length > N
  · obtain ⟨hall, hmsb, hval⟩ :=
      fits_drop hN1 (src.length - N) src (by omega) hb (by omega) hfit
    rw [convert_decimal_trunc hgt hall hmsb]
    have hdlen : (src.drop (src.length - N)).length = N := by
      rw [List.length_drop]; omega
    have hdne : src.drop (src.length - N) ≠ [] := by
      intro hc
      rw [hc] at hdlen
      simp at hdlen
      omega
    have hdb : ∀ b ∈ src.drop (src.length - N), b < 256 :=
      fun b hbm => hb b (List.mem_of_mem_drop hbm)
    obtain ⟨dest, hdest, hdval⟩ := writeOut_value hdne hdb hdlen.le hN8
    exact ⟨dest, hdest, by rw [hdval, hval]⟩
  · rw [convert_decimal_eq_writeOut hne (by omega)]
    exact writeOut_value hne hb (by omega) hN8

/-- Witness for C1's amended theorem at a concrete input: source `FF` (−1),
target width 4, output `FF FF FF FF` denoting −1. -/
theorem convert_decimal_value_preservation_witness :
    ∃ dest, convert_decimal 4 [255] = .ok dest ∧ targetValue 4 dest = beValue [255] :=
  convert_decimal_value_preservation [255] 4 (by decide) (by decide) (by decide)
    (by decide) (by decide)

/-- C2: raises-iff law of the converter. `convert_decimal` errors exactly when
the source is empty, or longer than `N` with the truncation condition (all
dropped bytes equal the sign byte and the high bit of the first retained byte
equals the sign bit) failing; and every error is `Unsupported`. -/
theorem convert_decimal_raises_iff (N : Nat) (src : List Nat) :
    ((∃ e, convert_decimal N src = .error e) ↔
      src.length = 0 ∨ (src.length > N ∧
        ¬ ((∀ b ∈ src.take (src.length - N), b = signExtByte (src.headD 0)) ∧
          byteTop (src.getD (src.length - N) 0) = byteTop (src.headD 0)))) ∧
    (∀ e, convert_decimal N src = .error e → e = .unsupported) := by
  by_cases h0 : src.length = 0
  · constructor
    · constructor
      · intro _; exact Or.inl h0
      · intro _
        refine ⟨.unsupported, ?_⟩
        unfold convert_decimal
        rw [if_pos h0]
    · intro e he
      unfold convert_decimal at he
      rw [if_pos h0] at he
      injection he with h
      exact h.symm
  · by_cases hgt : src.length > N
    · by_cases hcond : (∀ b ∈ src.take (src.length - N), b = signExtByte (src.headD 0)) ∧
        byteTop (src.getD (src.length - N) 0) = byteTop (src.headD 0)
      · have heq := convert_decimal_trunc hgt hcond.1 hcond.2
        obtain ⟨d, hd⟩ := writeOut_isOk N (src.drop (src.length - N))
        rw [hd] at heq
        constructor
        · constructor
          · intro ⟨e, he⟩
            rw [heq] at he
            exact absurd he (by simp)
          · intro h
            rcases h with h | ⟨_, hnc⟩
            · exact absurd h h0
            · exact absurd hcond hnc
        · intro e he
          rw [heq] at he
          exact absurd he (by simp)
      · have herr : convert_decimal N src = .error .unsupported := by
          unfold convert_decimal
          rw [if_neg h0, if_pos hgt]
          by_cases hany : (src.take (src.length - N)).any
              (fun b => b != signExtByte (src.headD 0)) = true
          · rw [if_pos hany]
          · rw [if_neg hany]
            have hallb : ∀ b ∈ src.take (src.length - N), b = signExtByte (src.headD 0) := by
              intro b hbm
              by_contra hbne
              exact hany (List.any_eq_true.mpr ⟨b, hbm, by simpa using hbne⟩)
            have hbne : (byteTop (src.getD (src.length - N) 0)
                != byteTop (signExtByte (src.headD 0))) = true := by
              by_contra hc
              apply hcond
              refine ⟨hallb, ?_⟩
              have : byteTop (src.getD (src.length - N) 0) =
                  byteTop (signExtByte (src.headD 0)) := by
                simpa using hc
              rw [this, byteTop_signExtByte]
            rw [if_pos hbne]
        constructor
        · constructor
          · intro _; exact Or.inr ⟨hgt, hcond⟩
          · intro _; exact ⟨.unsupported, herr⟩
        · intro e he
          rw [herr] at he
          injection he with h
          exact h.symm
    · have heq := @convert_decimal_eq_writeOut N src
        (fun hc : src = [] => h0 (by rw [hc]; rfl)) (by omega)
      obtain ⟨d, hd⟩ := writeOut_isOk N src
      rw [hd] at heq
      constructor
      · constructor
        · intro ⟨e, he⟩
          rw [heq] at he
          exact absurd he (by simp)
        · intro h
          rcases h with h | ⟨hgt', _⟩
          · exact absurd h h0
          · exact absurd hgt' hgt
      · intro e he
        rw [heq] at he
        exact absurd he (by simp)

/-- C3: sign-extension law. For a source strictly shorter than the target
width, the conversion writes the same `N` bytes as the conversion applied to
the width-`N` source obtained by prepending `N - S` copies of the sign byte
(which then takes the `S = N` byte-reversal / word-swap path). -/
theorem convert_decimal_sign_extension_law (src : List Nat) (N : Nat)
    (hne : src ≠ []) (hSN : src.length < N) :
    convert_decimal N src = convert_decimal N (signExtend N src) := by
  have hS1 : 1 ≤ src.length := List.length_pos.mpr hne
  have hlen : (signExtend N src).length = N := signExtend_length (by omega)
  have hene : signExtend N src ≠ [] := by
    intro hc
    rw [hc] at hlen
    simp at hlen
    omega
  rw [convert_decimal_eq_writeOut hne (by omega),
    convert_decimal_eq_writeOut hene (by omega)]
  have hhead : (signExtend N src).headD 0 = signExtByte (src.headD 0) := by
    unfold signExtend
    have hk : N - src.length ≠ 0 := by omega
    cases hk' : N - src.length with
    | zero => exact absurd hk' hk
    | succ k => simp [List.replicate_succ]
  have hsign : signExtByte ((signExtend N src).headD 0) = signExtByte (src.headD 0) := by
    rw [hhead, signExtByte_idem]
  have hext2 : signExtend N (signExtend N src) = signExtend N src := by
    unfold signExtend
    conv_lhs => rw [show (List.replicate (N - src.length) (signExtByte (src.headD 0))
      ++ src).length = N from hlen]
    rw [Nat.sub_self, List.replicate_zero, List.nil_append]
  unfold writeOut
  by_cases h8 : N ≤ 8
  · rw [if_pos h8, if_pos h8]
    congr 1
    rw [hlen, Nat.sub_self, List.replicate_zero, List.append_nil, signExtend,
      List.reverse_append, List.reverse_replicate]
  · rw [if_neg h8, if_neg h8]
    congr 1
    rw [hext2]

/-- Witness for C3 at a concrete input: widening `80` (−128) to 4 bytes. -/
theorem convert_decimal_sign_extension_law_witness :
    convert_decimal 4 [128] = convert_decimal 4 (signExtend 4 [128]) :=
  convert_decimal_sign_extension_law [128] 4 (by decide) (by decide)

lemma range_blocks : ∀ W : Nat,
    ((List.range W).map (fun w => (List.range 8).map (fun i => w * 8 + i))).flatten =
      List.range (8 * W) := by
  intro W
  induction W with
  | zero => simp
  | succ W ih =>
    rw [List.range_succ W, List.map_append, List.flatten_append, ih]
    rw [show 8 * (W + 1) = 8 * W + 8 by ring, List.range_add]
    congr 1
    simp only [List.map_cons, List.map_nil, List.flatten_cons, List.flatten_nil,
      List.append_nil]
    have : (fun i => W * 8 + i) = (fun i => 8 * W + i) := by
      funext i; ring
    rw [this]

lemma map_fst_blocks (g : Nat → Nat → Nat) (W : Nat) :
    ((((List.range W).map
      (fun w => (List.range 8).map (fun i => (w * 8 + i, g w i)))).flatten).map
        Prod.fst) = List.range (8 * W) := by
  rw [List.map_flatten, List.map_map]
  have hcomp : (List.map (Prod.fst (β := Nat)) ∘
      fun w => (List.range 8).map (fun i => (w * 8 + i, g w i))) =
      fun w => (List.range 8).map (fun i => w * 8 + i) := by
    funext w
    rw [Function.comp_apply, List.map_map]
    rfl
  rw [hcomp, range_blocks]

lemma map_fst_writeTrace {N : Nat} {src : List Nat} (hSN : src.length ≤ N)
    (h : N ≤ 8 ∨ 8 ∣ N) :
    (writeTrace N src).map Prod.fst = List.range N := by
  unfold writeTrace
  by_cases h8 : N ≤ 8
  · rw [if_pos h8, List.map_append, List.map_map, List.map_map]
    have h1 : (Prod.fst ∘ fun i => (i, src.getD (src.length - 1 - i) 0)) =
        (id : Nat → Nat) := by
      funext i; rfl
    have h2 : (Prod.fst ∘ fun i => (src.length + i, signExtByte (src.headD 0))) =
        (fun i => src.length + i) := by
      funext i; rfl
    rw [h1, h2, List.map_id]
    conv_rhs => rw [show N = src.length + (N - src.length) by omega, List.range_add]
  · obtain hdvd := h.resolve_left h8
    rw [if_neg h8]
    exact (map_fst_blocks
      (fun w i => if w * 8 + 7 - i < N - src.length then signExtByte (src.headD 0)
        else src.getD (w * 8 + 7 - i - (N - src.length)) 0) (N / 8)).trans
      (by rw [Nat.mul_div_cancel' hdvd])

/-- C9: bounded-write safety. Every error return of `convert_decimal`
precedes the write-out, so an erroring call performs no store through
`dest`; a succeeding call stores to each destination index `0 ≤ i < N`
exactly once (in ascending order) and to no index outside that range. -/
theorem convert_decimal_bounded_writes (N : Nat) (src : List Nat)
    (hN : N = 1 ∨ N = 2 ∨ N = 4 ∨ N = 8 ∨ N = 16 ∨ N = 32) :
    (∀ e, (convert_decimal_trace N src).2 = .error e →
      (convert_decimal_trace N src).1 = []) ∧
    ((convert_decimal_trace N src).2 = .ok () →
      (convert_decimal_trace N src).1.map Prod.fst = List.range N) := by
  have hN8 : N ≤ 8 ∨ 8 ∣ N := by
    rcases hN with rfl | rfl | rfl | rfl | rfl | rfl
    · exact Or.inl (by omega)
    · exact Or.inl (by omega)
    · exact Or.inl (by omega)
    · exact Or.inl (by omega)
    · exact Or.inr (by decide)
    · exact Or.inr (by decide)
  unfold convert_decimal_trace
  by_cases h0 : src.length = 0
  · rw [if_pos h0]
    exact ⟨fun e _ => rfl, fun hc => absurd hc (by simp)⟩
  · rw [if_neg h0]
    by_cases hgt : src.length > N
    · rw [if_pos hgt]
      by_cases hany : ((src.take (src.length - N)).any
          (fun b => b != signExtByte (src.headD 0))) = true
      · rw [if_pos hany]
        exact ⟨fun e _ => rfl, fun hc => absurd hc (by simp)⟩
      · rw [if_neg hany]
        by_cases hbne : (byteTop (src.getD (src.length - N) 0)
            != byteTop (signExtByte (src.headD 0))) = true
        · rw [if_pos hbne]
          exact ⟨fun e _ => rfl, fun hc => absurd hc (by simp)⟩
        · rw [if_neg hbne]
          refine ⟨fun e hc => absurd hc (by simp), fun _ => ?_⟩
          exact map_fst_writeTrace (by rw [List.length_drop]; omega) hN8
    · rw [if_neg hgt]
      refine ⟨fun e hc => absurd hc (by simp), fun _ => ?_⟩
      exact map_fst_writeTrace (by omega) hN8

/-- Witness for C9 at a concrete input: the successful conversion of the
two-byte source `80 00` into 8 bytes stores to exactly the indices 0..7. -/
theorem convert_decimal_bounded_writes_witness :
    (convert_decimal_trace 8 [128, 0]).1.map Prod.fst = List.range 8 :=
  (convert_decimal_bounded_writes 8 [128, 0]
    (by right; right; right; left; rfl)).2 (by decide)

/-- C4 (counterexample): the claim as stated is false for the dictionary
entry points. `decode_fixed_decimal_dict` with `src_len = 0` fails with a
`Layout` error raised by `RuntimeFixedDictDecoder::try_new` — which runs
BEFORE the tag/`src_len` validation — not with `Unsupported`. -/
theorem dispatch_validation_counterexample :
    decode_fixed_decimal_dict ⟨0, []⟩ [1] 0 .Decimal8 = .error .layout ∧
    ErrKind.layout ≠ ErrKind.unsupported := by
  exact ⟨by decide, by decide⟩

/-- C4 (amended): dispatch validation. For an invalid target tag or a
`src_len` of 0 or above 32, the plain entry points
(`decode_fixed_decimal`, `decode_fixed_decimal_filtered`) fail with
`Unsupported` before any sink exists, so `data_vec` is untouched. The dict
entry points construct the dictionary decoder and the RLE slicer first
(neither touches `data_vec`): with `src_len = 0` they fail with the
dictionary constructor's `Layout` error; once the dictionary decoder and
the index-stream slicer construct successfully, an invalid tag or
`src_len > 32` fails with `Unsupported` as claimed. -/
theorem dispatch_validation (src_len : Nat) (tag : ColumnTypeTag)
    (h : isDecimalTag tag = false ∨ src_len = 0 ∨ src_len > 32) :
    decode_fixed_decimal src_len tag = .error .unsupported ∧
    decode_fixed_decimal_filtered src_len tag = .error .unsupported ∧
    (∀ (dp : DictPage) (vb : List Nat), src_len = 0 →
      decode_fixed_decimal_dict dp vb src_len tag = .error .layout ∧
      decode_fixed_decimal_filtered_dict dp vb src_len tag = .error .layout) ∧
    (∀ (dp : DictPage) (vb : List Nat) (d : RuntimeFixedDictDecoder),
      RuntimeFixedDictDecoder.try_new dp src_len = .ok d → vb ≠ [] →
      decode_fixed_decimal_dict dp vb src_len tag = .error .unsupported ∧
      decode_fixed_decimal_filtered_dict dp vb src_len tag = .error .unsupported) := by
  have hplain : decode_fixed_decimal src_len tag = .error .unsupported := by
    cases tag with
    | Boolean => rfl
    | Long => rfl
    | Decimal8 =>
      have hsl : src_len = 0 ∨ src_len > 32 := h.resolve_left (by decide)
      show (if src_len = 0 ∨ src_len > 32 then (.error .unsupported : Except ErrKind SinkChoice)
        else decode_fixed_decimal_n 1 none DECIMAL8_NULL src_len) = .error .unsupported
      rw [if_pos hsl]
    | Decimal16 =>
      have hsl : src_len = 0 ∨ src_len > 32 := h.resolve_left (by decide)
      show (if src_len = 0 ∨ src_len > 32 then (.error .unsupported : Except ErrKind SinkChoice)
        else decode_fixed_decimal_n 2 none DECIMAL16_NULL src_len) = .error .unsupported
      rw [if_pos hsl]
    | Decimal32 =>
      have hsl : src_len = 0 ∨ src_len > 32 := h.resolve_left (by decide)
      show (if src_len = 0 ∨ src_len > 32 then (.error .unsupported : Except ErrKind SinkChoice)
        else decode_fixed_decimal_n 4 none DECIMAL32_NULL src_len) = .error .unsupported
      rw [if_pos hsl]
    | Decimal64 =>
      have hsl : src_len = 0 ∨ src_len > 32 := h.resolve_left (by decide)
      show (if src_len = 0 ∨ src_len > 32 then (.error .unsupported : Except ErrKind SinkChoice)
        else decode_fixed_decimal_n 8 none DECIMAL64_NULL src_len) = .error .unsupported
      rw [if_pos hsl]
    | Decimal128 =>
      have hsl : src_len = 0 ∨ src_len > 32 := h.resolve_left (by decide)
      show (if src_len = 0 ∨ src_len > 32 then (.error .unsupported : Except ErrKind SinkChoice)
        else decode_fixed_decimal_n 16 (some 2) DECIMAL128_NULL src_len) = .error .unsupported
      rw [if_pos hsl]
    | Decimal256 =>
      have hsl : src_len = 0 ∨ src_len > 32 := h.resolve_left (by decide)
      show (if src_len = 0 ∨ src_len > 32 then (.error .unsupported : Except ErrKind SinkChoice)
        else decode_fixed_decimal_n 32 (some 4) DECIMAL256_NULL src_len) = .error .unsupported
      rw [if_pos hsl]
  have hfiltered : decode_fixed_decimal_filtered src_len tag =
      decode_fixed_decimal src_len tag := by
    cases tag <;> rfl
  refine ⟨hplain, hfiltered.trans hplain, ?_, ?_⟩
  · intro dp vb h0
    subst h0
    have hlay : RuntimeFixedDictDecoder.try_new dp 0 = .error .layout := by
      unfold RuntimeFixedDictDecoder.try_new
      rw [if_pos rfl]
    constructor
    · unfold decode_fixed_decimal_dict
      rw [hlay]
    · unfold decode_fixed_decimal_filtered_dict
      rw [hlay]
  · intro dp vb d hok hvb
    have hslicer : RleDictionarySlicer.try_new vb = .ok () := by
      unfold RleDictionarySlicer.try_new
      rw [if_neg (by simpa [List.length_eq_zero] using hvb)]
    have hsl0 : src_len ≠ 0 := by
      intro hc
      subst hc
      unfold RuntimeFixedDictDecoder.try_new at hok
      rw [if_pos rfl] at hok
      exact absurd hok (by simp)
    have hcond : isDecimalTag tag = false ∨ src_len > 32 := by
      rcases h with h | h | h
      · exact Or.inl h
      · exact absurd h hsl0
      · exact Or.inr h
    have hws : decode_fixed_decimal_with_slicer src_len tag = .error .unsupported := by
      cases tag with
      | Boolean => rfl
      | Long => rfl
      | Decimal8 =>
        have hsl : src_len = 0 ∨ src_len > 32 := Or.inr (hcond.resolve_left (by decide))
        show (if src_len = 0 ∨ src_len > 32 then (.error .unsupported : Except ErrKind SinkChoice)
          else if src_len = 1 then .ok (.ReverseFixedColumnSink 1 DECIMAL8_NULL)
          else .ok (.SignExtendDecimalColumnSink 1 DECIMAL8_NULL src_len)) = .error .unsupported
        rw [if_pos hsl]
      | Decimal16 =>
        have hsl : src_len = 0 ∨ src_len > 32 := Or.inr (hcond.resolve_left (by decide))
        show (if src_len = 0 ∨ src_len > 32 then (.error .unsupported : Except ErrKind SinkChoice)
          else if src_len = 2 then .ok (.ReverseFixedColumnSink 2 DECIMAL16_NULL)
          else .ok (.SignExtendDecimalColumnSink 2 DECIMAL16_NULL src_len)) = .error .unsupported
        rw [if_pos hsl]
      | Decimal32 =>
        have hsl : src_len = 0 ∨ src_len > 32 := Or.inr (hcond.resolve_left (by decide))
        show (if src_len = 0 ∨ src_len > 32 then (.error .unsupported : Except ErrKind SinkChoice)
          else if src_len = 4 then .ok (.ReverseFixedColumnSink 4 DECIMAL32_NULL)
          else .ok (.SignExtendDecimalColumnSink 4 DECIMAL32_NULL src_len)) = .error .unsupported
        rw [if_pos hsl]
      | Decimal64 =>
        have hsl : src_len = 0 ∨ src_len > 32 := Or.inr (hcond.resolve_left (by decide))
        show (if src_len = 0 ∨ src_len > 32 then (.error .unsupported : Except ErrKind SinkChoice)
          else if src_len = 8 then .ok (.ReverseFixedColumnSink 8 DECIMAL64_NULL)
          else .ok (.SignExtendDecimalColumnSink 8 DECIMAL64_NULL src_len)) = .error .unsupported
        rw [if_pos hsl]
      | Decimal128 =>
        have hsl : src_len = 0 ∨ src_len > 32 := Or.inr (hcond.resolve_left (by decide))
        show (if src_len = 0 ∨ src_len > 32 then (.error .unsupported : Except ErrKind SinkChoice)
          else if src_len = 16 then .ok (.WordSwapDecimalColumnSink 16 2 DECIMAL128_NULL)
          else .ok (.SignExtendDecimalColumnSink 16 DECIMAL128_NULL src_len)) = .error .unsupported
        rw [if_pos hsl]
      | Decimal256 =>
        have hsl : src_len = 0 ∨ src_len > 32 := Or.inr (hcond.resolve_left (by decide))
        show (if src_len = 0 ∨ src_len > 32 then (.error .unsupported : Except ErrKind SinkChoice)
          else if src_len = 32 then .ok (.WordSwapDecimalColumnSink 32 4 DECIMAL256_NULL)
          else .ok (.SignExtendDecimalColumnSink 32 DECIMAL256_NULL src_len)) = .error .unsupported
        rw [if_pos hsl]
    constructor
    · unfold decode_fixed_decimal_dict
      rw [hok, hslicer]
      exact hws
    · unfold decode_fixed_decimal_filtered_dict
      rw [hok, hslicer]
      exact hws

/-- Witness for C4's amended theorem at concrete inputs: `src_len = 33` with
tag `Decimal8` fails with `Unsupported` in the plain path and, with a
well-formed (empty) dictionary and nonempty index stream, in the dict path. -/
theorem dispatch_validation_witness :
    decode_fixed_decimal 33 .Decimal8 = .error .unsupported ∧
    decode_fixed_decimal_dict ⟨0, []⟩ [3] 33 .Decimal8 = .error .unsupported := by
  refine ⟨(dispatch_validation 33 .Decimal8 (Or.inr (Or.inr (by omega)))).1, ?_⟩
  exact ((dispatch_validation 33 .Decimal8 (Or.inr (Or.inr (by omega)))).2.2.2
    ⟨0, []⟩ [3] ⟨[], 33⟩ (by decide) (by decide)).1

/-- C5: sink atomicity on failure. If `push` or `push_slice` on
`ByteArrayDecimalColumnSink` returns an error, the column buffer's length is
unchanged (nothing was committed), even when the failing value sits in the
middle of a `push_slice` batch. -/
theorem sink_atomicity_on_failure (N : Nat) (s : ByteArrayDecimalColumnSink N) :
    (∀ e, s.push.1 = .error e → s.push.2.data_vec.length = s.data_vec.length) ∧
    (∀ count e, (ByteArrayDecimalColumnSink.push_slice count s).1 = .error e →
      (ByteArrayDecimalColumnSink.push_slice count s).2.data_vec.length =
        s.data_vec.length) := by
  constructor
  · intro e he
    unfold ByteArrayDecimalColumnSink.push at he ⊢
    cases hc : convert_decimal N (s.pending.headD []) with
    | error e' => rfl
    | ok b =>
      rw [hc] at he
      exact absurd he (by simp)
  · intro count e he
    unfold ByteArrayDecimalColumnSink.push_slice at he ⊢
    cases hc : ByteArrayDecimalColumnSink.convertMany N count s.pending with
    | mk r p' =>
      cases r with
      | error e' => rfl
      | ok bytes =>
        rw [hc] at he
        exact absurd he (by simp)

/-- Witness for C5 at a concrete input: a 3-value batch whose second slice is
empty fails, leaving the one pre-existing byte of `data_vec` in place. -/
theorem sink_atomicity_on_failure_witness :
    (ByteArrayDecimalColumnSink.push_slice 3
      (⟨[[1], [], [2]], [9], [0]⟩ : ByteArrayDecimalColumnSink 1)).2.data_vec.length =
      ([9] : List Nat).length :=
  (sink_atomicity_on_failure 1 ⟨[[1], [], [2]], [9], [0]⟩).2 3 .unsupported (by decide)

/-- C6: null sentinel fidelity. The byte-array dispatch pairs each decimal
tag with the matching width-specific sentinel of the right length, and
`push_null` appends exactly the sink's sentinel while `push_nulls n` appends
exactly `n` consecutive copies of it. -/
theorem null_sentinel_fidelity :
    (byte_array_decimal_sink_for .Decimal8 = .ok (1, DECIMAL8_NULL) ∧
      byte_array_decimal_sink_for .Decimal16 = .ok (2, DECIMAL16_NULL) ∧
      byte_array_decimal_sink_for .Decimal32 = .ok (4, DECIMAL32_NULL) ∧
      byte_array_decimal_sink_for .Decimal64 = .ok (8, DECIMAL64_NULL) ∧
      byte_array_decimal_sink_for .Decimal128 = .ok (16, DECIMAL128_NULL) ∧
      byte_array_decimal_sink_for .Decimal256 = .ok (32, DECIMAL256_NULL)) ∧
    (DECIMAL8_NULL.length = 1 ∧ DECIMAL16_NULL.length = 2 ∧
      DECIMAL32_NULL.length = 4 ∧ DECIMAL64_NULL.length = 8 ∧
      DECIMAL128_NULL.length = 16 ∧ DECIMAL256_NULL.length = 32) ∧
    (∀ (N : Nat) (s : ByteArrayDecimalColumnSink N),
      s.push_null.data_vec = s.data_vec ++ s.null_value) ∧
    (∀ (N count : Nat) (s : ByteArrayDecimalColumnSink N),
      (ByteArrayDecimalColumnSink.push_nulls count s).data_vec =
        s.data_vec ++ (List.replicate count s.null_value).flatten) := by
  exact ⟨⟨rfl, rfl, rfl, rfl, rfl, rfl⟩,
    ⟨by decide, by decide, by decide, by decide, by decide, by decide⟩,
    fun N s => rfl, fun N count s => rfl⟩

/-- C7: fixed dictionary construction law. `try_new` returns a `Layout`
error exactly when `value_size = 0` or `value_size * num_values` differs
from the buffer length (and every error is `Layout`); a successfully
constructed decoder reports `len() = num_values` and `get_dict_value i` is
exactly the slice `buffer[i*value_size .. (i+1)*value_size]`. -/
theorem fixed_dict_construction_law (dp : DictPage) (vs : Nat) :
    ((∃ e, RuntimeFixedDictDecoder.try_new dp vs = .error e) ↔
      vs = 0 ∨ vs * dp.num_values ≠ dp.buffer.length) ∧
    (∀ e, RuntimeFixedDictDecoder.try_new dp vs = .error e → e = .layout) ∧
    (∀ d, RuntimeFixedDictDecoder.try_new dp vs = .ok d →
      d.len = dp.num_values ∧
      ∀ i, i < dp.num_values →
        d.get_dict_value i = (dp.buffer.drop (i * vs)).take vs ∧
        (d.get_dict_value i).length = vs ∧
        ∀ j, j < vs → (d.get_dict_value i).getD j 0 = dp.buffer.getD (i * vs + j) 0) := by
  by_cases hv0 : vs = 0
  · subst hv0
    have herr : RuntimeFixedDictDecoder.try_new dp 0 = .error .layout := by
      unfold RuntimeFixedDictDecoder.try_new
      rw [if_pos rfl]
    refine ⟨⟨fun _ => Or.inl rfl, fun _ => ⟨.layout, herr⟩⟩, ?_, ?_⟩
    · intro e he
      rw [herr] at he
      injection he with h
      exact h.symm
    · intro d hd
      rw [herr] at hd
      exact absurd hd (by simp)
  · by_cases hmul : vs * dp.num_values ≠ dp.buffer.length
    · have herr : RuntimeFixedDictDecoder.try_new dp vs = .error .layout := by
        unfold RuntimeFixedDictDecoder.try_new
        rw [if_neg hv0, if_pos hmul]
      refine ⟨⟨fun _ => Or.inr hmul, fun _ => ⟨.layout, herr⟩⟩, ?_, ?_⟩
      · intro e he
        rw [herr] at he
        injection he with h
        exact h.symm
      · intro d hd
        rw [herr] at hd
        exact absurd hd (by simp)
    · have hok : RuntimeFixedDictDecoder.try_new dp vs = .ok ⟨dp.buffer, vs⟩ := by
        unfold RuntimeFixedDictDecoder.try_new
        rw [if_neg hv0, if_neg hmul]
      have heq : vs * dp.num_values = dp.buffer.length := by
        by_contra hc
        exact hmul hc
      refine ⟨⟨?_, ?_⟩, ?_, ?_⟩
      · intro ⟨e, he⟩
        rw [hok] at he
        exact absurd he (by simp)
      · intro hc
        rcases hc with hc | hc
        · exact absurd hc hv0
        · exact absurd hc hmul
      · intro e he
        rw [hok] at he
        exact absurd he (by simp)
      · intro d hd
        rw [hok] at hd
        injection hd with hd
        subst hd
        constructor
        · show dp.buffer.length / vs = dp.num_values
          rw [← heq]
          exact Nat.mul_div_cancel_left _ (by omega)
        · intro i hi
          have hsz : (i + 1) * vs ≤ dp.buffer.length := by
            calc (i + 1) * vs ≤ dp.num_values * vs :=
                  Nat.mul_le_mul_right vs (by omega)
              _ = dp.buffer.length := by rw [mul_comm]; exact heq
          have hexp : (i + 1) * vs = i * vs + vs := by ring
          refine ⟨rfl, ?_, ?_⟩
          · show ((dp.buffer.drop (i * vs)).take vs).length = vs
            rw [List.length_take, List.length_drop]
            omega
          · intro j hj
            show ((dp.buffer.drop (i * vs)).take vs).getD j 0 = _
            have hlen : ((dp.buffer.drop (i * vs)).take vs).length = vs := by
              rw [List.length_take, List.length_drop]
              omega
            have hjb : i * vs + j < dp.buffer.length := by omega
            rw [List.getD_eq_getElem _ _ (by omega), List.getElem_take,
              List.getElem_drop, List.getD_eq_getElem _ _ hjb]

/-- Witness for C7 at a concrete input: a 2-entry dictionary of 2-byte
values; construction succeeds, `len` is 2 and entry 1 is `[3, 4]`. -/
theorem fixed_dict_construction_law_witness :
    (RuntimeFixedDictDecoder.mk [1, 2, 3, 4] 2).len = 2 ∧
    (RuntimeFixedDictDecoder.mk [1, 2, 3, 4] 2).get_dict_value 1 =
      (([1, 2, 3, 4] : List Nat).drop 2).take 2 := by
  have h := (fixed_dict_construction_law ⟨2, [1, 2, 3, 4]⟩ 2).2.2
    ⟨[1, 2, 3, 4], 2⟩ (by decide)
  exact ⟨h.1, (h.2 1 (by decide)).1⟩

set_option maxRecDepth 20000 in
/-- C8 (counterexample): the claim as stated is false. Converting
`00 00 00 00 00 00 00 01` (S = 8) to width 16 succeeds, but the first
written 64-bit word is `00 00 00 00 00 00 00 00` and the second
`01 00 00 00 00 00 00 00` — not the claimed order. -/
theorem multiword_scenario_counterexample :
    convert_decimal 16 [0, 0, 0, 0, 0, 0, 0, 1] =
      .ok [0, 0, 0, 0, 0, 0, 0, 0, 1, 0, 0, 0, 0, 0, 0, 0] ∧
    ([0, 0, 0, 0, 0, 0, 0, 0, 1, 0, 0, 0, 0, 0, 0, 0] : List Nat) ≠
      [1, 0, 0, 0, 0, 0, 0, 0, 0, 0, 0, 0, 0, 0, 0, 0] := by
  exact ⟨by decide, by decide⟩

set_option maxRecDepth 20000 in
/-- C8 (amended): converting the 8-byte big-endian source
`00 00 00 00 00 00 00 01` to target width 16 succeeds and writes
`00 00 00 00 00 00 00 00` as the first 64-bit word and
`01 00 00 00 00 00 00 00` as the second: the most-significant word comes
first, the least-significant word (holding the value 1) second. -/
theorem multiword_scenario :
    convert_decimal 16 [0, 0, 0, 0, 0, 0, 0, 1] =
      .ok ([0, 0, 0, 0, 0, 0, 0, 0] ++ [1, 0, 0, 0, 0, 0, 0, 0]) := by
  decide

/-- C10: deferred-error placeholder convertibility. The one-byte placeholder
`DECIMAL_DICT_ERROR_VALUE = [0x00]` of the byte-array dictionary paths, and
the all-zero slice of length `src_len` of the fixed dictionary paths, are
accepted by `convert_decimal` for every valid target width, so substituting
the placeholder for an out-of-range dictionary index can never itself cause
a per-value conversion error. -/
theorem error_placeholder_convertible :
    (∀ N, (N = 1 ∨ N = 2 ∨ N = 4 ∨ N = 8 ∨ N = 16 ∨ N = 32) →
      ∃ d, convert_decimal N DECIMAL_DICT_ERROR_VALUE = .ok d) ∧
    (∀ src_len N, 1 ≤ src_len → src_len ≤ 32 →
      (N = 1 ∨ N = 2 ∨ N = 4 ∨ N = 8 ∨ N = 16 ∨ N = 32) →
      ∃ d, convert_decimal N (List.replicate src_len 0) = .ok d) := by
  have hgen : ∀ (S N : Nat), 1 ≤ S →
      ∃ d, convert_decimal N (List.replicate S 0) = .ok d := by
    intro S N hS
    have hlen : (List.replicate S 0).length = S := List.length_replicate ..
    have hne : List.replicate S 0 ≠ [] := by
      intro hc
      rw [hc] at hlen
      simp at hlen
      omega
    have hhead : (List.replicate S 0).headD 0 = 0 := by
      cases S with
      | zero => omega
      | succ s => simp [List.replicate_succ]
    have hget : ∀ k, (List.replicate S 0).getD k 0 = 0 := by
      intro k
      rcases Nat.lt_or_ge k S with hk | hk
      · rw [List.getD_eq_getElem _ _ (by omega), List.getElem_replicate]
      · exact List.getD_eq_default _ _ (by omega)
    by_cases hgt : S > N
    · rw [convert_decimal_trunc (by omega) ?_ ?_]
      · exact writeOut_isOk _ _
      · intro b hbm
        rw [List.eq_of_mem_replicate (List.mem_of_mem_take hbm), hhead]
        decide
      · rw [hget, hhead]
    · rw [convert_decimal_eq_writeOut hne (by omega)]
      exact writeOut_isOk _ _
  exact ⟨fun N _ => hgen 1 N le_rfl, fun S N h1 _ _ => hgen S N h1⟩

/-- Witness for C10 at a concrete input: the 20-byte all-zero placeholder
converts successfully to width 8. -/
theorem error_placeholder_convertible_witness :
    ∃ d, convert_decimal 8 (List.replicate 20 0) = .ok d :=
  error_placeholder_convertible.2 20 8 (by omega) (by omega)
    (Or.inr (Or.inr (Or.inr (Or.inl rfl))))

/-- Witness for C2 at a concrete input: the empty source makes the converter
fail. -/
theorem convert_decimal_raises_iff_witness :
    ∃ e, convert_decimal 4 ([] : List Nat) = .error e :=
  (convert_decimal_raises_iff 4 []).1.mpr (Or.inl rfl)

/-- Sanity checks against the spec's §8 concrete scenarios 1, 2, 3, 6 and 5. -/
lemma spec_concrete_scenarios :
    convert_decimal 1 [0x01] = .ok [0x01] ∧
    convert_decimal 4 [0xFF] = .ok [0xFF, 0xFF, 0xFF, 0xFF] ∧
    convert_decimal 2 [0x80, 0x00] = .ok [0x00, 0x80] ∧
    convert_decimal 4 [0, 0, 0, 0, 0x7F, 0xFF, 0xFF, 0xFF] =
      .ok [0xFF, 0xFF, 0xFF, 0x7F] ∧
    convert_decimal 4 [0xFF, 0xFF, 0xFF, 0xFF, 0x7F, 0xFF, 0xFF, 0xFF] =
      .error .unsupported ∧
    beValue [0xFF] = -1 ∧
    leValue [0xFF, 0xFF, 0xFF, 0xFF] = -1 := by
  refine ⟨by decide, by decide, by decide, by decide, by decide, by decide, by decide⟩

end QdbDecimal
